import Mathlib

/-! Verification development for the WriteProof event-log, hash-chain and
replay engine.  JavaScript strings are modelled as lists of characters,
machine arithmetic of the fallback digest as naturals reduced modulo 2^32,
and the asynchronous digest primitive as an explicit function parameter. -/

namespace WriteProof

set_option maxRecDepth 16000

/-- A JavaScript string, modelled as the list of its characters (one entry
per UTF-16 code unit; astral characters are approximated by one `Char`). -/
abbrev Str := List Char

/-- Shallow embedding of `insertAt` (src/utils/helpers.js line 45):
`str.slice(0, position) + chars + str.slice(position)`.  For non-negative
arguments, `slice` clamps exactly like `List.take` / `List.drop`. -/
def insertAt (s : Str) (position : Nat) (chars : Str) : Str :=
  s.take position ++ chars ++ s.drop position

/-- Shallow embedding of `deleteAt` (src/utils/helpers.js line 49):
`str.slice(0, position) + str.slice(position + length)`. -/
def deleteAt (s : Str) (position : Nat) (length : Nat) : Str :=
  s.take position ++ s.drop (position + length)

/-- The closed enumeration of event kinds.  The source stores them as the
strings `insert`, `delete`, `paste` and (in the second schema variant)
`move`; every dispatch site branches on insert/paste, delete, and leaves
the content unchanged otherwise, so `move` lands in the catch-all branch. -/
inductive EventType where
  | insert
  | delete
  | paste
  | move
deriving DecidableEq

/-- One recorded edit event, with the field shape used by
src/core/hashing.js and src/features/replay.js:
`{timestamp, type, position, char, length}`.  The sequence time is
modelled as a natural number of milliseconds. -/
structure Event where
  timestamp : Nat
  type : EventType
  position : Nat
  char : Str
  length : Nat
deriving DecidableEq

/-- Projection of an event onto the fields that the verification and
replay code actually reads (type, position, payload, length), obtained by
zeroing the sequence time.  Two events with equal projections are
indistinguishable to every verification pass below. -/
def eraseT (e : Event) : Event :=
  {e with timestamp := 0}

/-- The shared per-event content transformation, as written identically in
`verifyDocument` (hashing.js lines 77-81), `ReplayEngine._buildSnapshots`,
`ReplayEngine.play` and `ReplayEngine.seekTo` (replay.js): insert and paste
call `insertAt` with the event payload, delete calls `deleteAt` with the
event length, and any other kind leaves the content unchanged. -/
def applyEvent (content : Str) (e : Event) : Str :=
  match e.type with
  | .insert => insertAt content e.position e.char
  | .paste => insertAt content e.position e.char
  | .delete => deleteAt content e.position e.length
  | .move => content

/-- Content reconstructed after the first `i` events, starting from the
empty string: exactly the replay state of `ReplayEngine.play` after `i`
loop iterations, and the `replayContent` variable of `verifyDocument`
after `i` iterations of its replay loop. -/
def contentAt (log : List Event) (i : Nat) : Str :=
  (log.take i).foldl applyEvent []

/-- The 32-bit unsigned view of `Math.imul`: multiplication modulo 2^32.
JavaScript keeps the signed bit pattern, which coincides with this value
as a bit string; every consumer below only uses the bit pattern. -/
def imul (a b : Nat) : Nat := a * b % 4294967296

/-- One character of the fallback digest loop in `generateContentHash`
(src/core/hashing.js lines 14-18): both accumulators are xored with the
character code and multiplied by a fixed odd constant modulo 2^32. -/
def fallbackStep (h : Nat × Nat) (c : Char) : Nat × Nat :=
  (imul (Nat.xor h.1 c.toNat) 2654435761, imul (Nat.xor h.2 c.toNat) 1597334677)

/-- The fallback digest loop of `generateContentHash`, starting from the
seeds `0xdeadbeef` and `0x41c6ce57` (hashing.js line 13). -/
def fallbackLoop (s : Str) : Nat × Nat :=
  s.foldl fallbackStep (0xdeadbeef, 0x41c6ce57)

/-- The finalisation of the fallback digest (hashing.js lines 19-21):
`x >>> k` on a 32-bit pattern is division by 2^k, `2097151 & h2` keeps the
low 21 bits, and the result is the exact integer `2^32 * low21 + h1`. -/
def fallbackFinish (h : Nat × Nat) : Nat :=
  let h1 := Nat.xor (imul (Nat.xor h.1 (h.1 / 65536)) 2246822507)
                    (imul (Nat.xor h.2 (h.2 / 8192)) 3266489909)
  let h2 := Nat.xor (imul (Nat.xor h.2 (h.2 / 65536)) 2246822507)
                    (imul (Nat.xor h1 (h1 / 8192)) 3266489909)
  4294967296 * (h2 % 2097152) + h1

/-- Lower-case hexadecimal rendering padded on the left to 16 characters,
matching `hash.toString(16).padStart(16, '0')` (hashing.js line 22). -/
def toHexPadded (n : Nat) : Str :=
  List.replicate (16 - (Nat.toDigits 16 n).length) '0' ++ Nat.toDigits 16 n

/-- The complete fallback digest of `generateContentHash`
(hashing.js lines 11-22), used when `crypto.subtle` is unavailable.
The strong SHA-256 path is a platform primitive; the verification
operations below are therefore parametrised over the digest function,
with `fallbackDigest` as the concrete executable instance. -/
def fallbackDigest (s : Str) : Str :=
  toHexPadded (fallbackFinish (fallbackLoop s))

/-- A sparse hash checkpoint as produced by `createHashCheckpoint`
(hashing.js lines 37-44).  The `keystrokeIndex` is an integer because the
source computes `doc.keystrokeLog.length - 1` when the argument is
omitted, which is -1 on an empty log. -/
structure Checkpoint where
  timestamp : Nat
  keystrokeIndex : Int
  contentHash : Str
  cumulativeHash : Str
deriving DecidableEq

/-- The metadata block carried by documents and exports (the normalised
shape produced by `validateImport` in features/export.js). -/
structure Metadata where
  totalKeystrokes : Nat
  totalTime : Nat
  wordCount : Nat
  characterCount : Nat
deriving DecidableEq

/-- A WriteProof document.  `keystrokeLog` is optional because
`verifyDocument` explicitly branches on `!doc.keystrokeLog` (an absent
log) as well as on an empty one. -/
structure Doc where
  id : Str
  title : Str
  createdAt : Str
  lastModified : Str
  content : Str
  links : List Str
  keystrokeLog : Option (List Event)
  chainHash : Str
  hashChain : List Checkpoint
  metadata : Metadata
deriving DecidableEq

/-- An entry of `results.invalidCheckpoints` in `verifyDocument`: either a
content-hash mismatch found during replay (hashing.js lines 89-93,
carrying the keystroke index) or a cumulative-hash mismatch found in the
chain pass (lines 109-114, tagged `cumulative_hash_mismatch` and carrying
the checkpoint index).  These two shapes are the only error classes the
verifier produces. -/
inductive InvalidEntry where
  | contentHashMismatch (keystrokeIndex : Nat) (expected actual : Str)
  | cumulativeHashMismatch (checkpointIndex : Nat) (expected actual : Str)
deriving DecidableEq

/-- The result object of `verifyDocument` (hashing.js lines 55-60). -/
structure VerifyResult where
  totalCheckpoints : Nat
  validCheckpoints : Nat
  invalidCheckpoints : List InvalidEntry
  isValid : Bool
deriving DecidableEq

/-- The checkpoint cadence (hashing.js line 50). -/
def CHECKPOINT_INTERVAL : Nat := 10

/-- Shallow embedding of `createHashCheckpoint` (hashing.js lines 25-48).
The two optional JavaScript parameters become `Option` arguments; the
digest primitive is passed explicitly.  Returns the updated document and
the checkpoint that was pushed onto its hash chain.  The absent-log case
of the timestamp computation never arises in the source (its callers
always carry a log); `getD []` stands in for it. -/
def createHashCheckpoint (digest : Str → Str) (doc : Doc)
    (contentArg : Option Str) (keystrokeIndexArg : Option Nat) :
    Doc × Checkpoint :=
  let contentHash := digest (contentArg.getD doc.content)
  let previousCumulativeHash :=
    match doc.hashChain.getLast? with
    | some cp => cp.cumulativeHash
    | none => ['0']
  let cumulativeHash := digest (previousCumulativeHash ++ contentHash)
  let log := doc.keystrokeLog.getD []
  let idx : Int :=
    match keystrokeIndexArg with
    | some k => (k : Int)
    | none => (log.length : Int) - 1
  let ts : Nat :=
    if 0 ≤ idx ∧ idx < (log.length : Int) then
      ((log.get? idx.toNat).map Event.timestamp).getD 0
    else 0
  let checkpoint : Checkpoint := ⟨ts, idx, contentHash, cumulativeHash⟩
  ({doc with hashChain := doc.hashChain ++ [checkpoint]}, checkpoint)

/-- The `checkpointMap` lookup of `verifyDocument` (hashing.js lines
67-70 and 83): a JavaScript `Map` filled in chain order keeps the last
entry per key, so the lookup returns the last checkpoint whose
`keystrokeIndex` equals the queried index. -/
def checkpointMapGet (chain : List Checkpoint) (i : Int) : Option Checkpoint :=
  (chain.filter (fun cp => cp.keystrokeIndex = i)).getLast?

/-- One iteration of the replay loop of `verifyDocument` (hashing.js lines
74-97), acting on the pair of the replayed content and the result being
accumulated.  The input pair of index and event comes from `List.enum`. -/
def replayStep (digest : Str → Str) (chain : List Checkpoint)
    (st : Str × VerifyResult) (ie : Nat × Event) : Str × VerifyResult :=
  let content := applyEvent st.1 ie.2
  match checkpointMapGet chain (ie.1 : Int) with
  | none => (content, st.2)
  | some cp =>
    let computedHash := digest content
    if computedHash = cp.contentHash then
      (content, {st.2 with validCheckpoints := st.2.validCheckpoints + 1})
    else
      (content, {st.2 with
        invalidCheckpoints := st.2.invalidCheckpoints ++
          [.contentHashMismatch ie.1 cp.contentHash computedHash],
        isValid := false})

/-- One iteration of the cumulative-chain loop of `verifyDocument`
(hashing.js lines 100-117): the recomputed value is the digest of the
previous *stored* cumulative hash concatenated with the stored content
hash, and the carried value is always the stored cumulative hash. -/
def cumulStep (digest : Str → Str) (st : Str × VerifyResult)
    (icp : Nat × Checkpoint) : Str × VerifyResult :=
  let expected := digest (st.1 ++ icp.2.contentHash)
  let r :=
    if expected = icp.2.cumulativeHash then st.2
    else
      {st.2 with
        isValid := false,
        invalidCheckpoints := st.2.invalidCheckpoints ++
          [.cumulativeHashMismatch icp.1 expected icp.2.cumulativeHash]}
  (icp.2.cumulativeHash, r)

/-- Shallow embedding of `verifyDocument` (src/core/hashing.js lines
52-120), parametrised over the digest primitive (`generateContentHash`
resolves to SHA-256 or to `fallbackDigest` depending on the platform).
An absent or empty keystroke log returns the initial result immediately,
before either verification pass runs. -/
def verifyDocument (digest : Str → Str) (doc : Doc) : VerifyResult :=
  let results : VerifyResult := ⟨doc.hashChain.length, 0, [], true⟩
  match doc.keystrokeLog with
  | none => results
  | some log =>
    if log = [] then results
    else
      let afterReplay :=
        log.enum.foldl (replayStep digest doc.hashChain) (([] : Str), results)
      let afterCumulative :=
        doc.hashChain.enum.foldl (cumulStep digest) ((['0'] : Str), afterReplay.2)
      afterCumulative.2

/-- The append step of `KeystrokeRecorder._handleInput` (keystroke.js:
"Push events to log synchronously so keystroke count is always current"):
each constructed event is pushed onto the log, one at a time, with no
validation of positions or sequence times. -/
def appendEvents (log : List Event) (events : List Event) : List Event :=
  events.foldl (fun l e => l ++ [e]) log

/-- The snapshot cadence of the replay engine (replay.js line 46). -/
def SNAPSHOT_INTERVAL : Nat := 1000

/-- One iteration of `ReplayEngine._buildSnapshots` (replay.js lines
38-49), generalised over the snapshot interval `K`: the event is applied
and, when the one-based index is a multiple of `K`, the pair of index and
content is recorded.  With `K = 0` no snapshot is ever recorded, matching
the JavaScript `(i + 1) % 0` being `NaN`. -/
def snapshotStep (K : Nat) (st : List (Nat × Str) × Str)
    (ie : Nat × Event) : List (Nat × Str) × Str :=
  let content := applyEvent st.2 ie.2
  if (ie.1 + 1) % K = 0 then (st.1 ++ [(ie.1 + 1, content)], content)
  else (st.1, content)

/-- The snapshot cache built by `ReplayEngine._buildSnapshots`: the map
entries in insertion order, seeded with the entry `(0, '')`. -/
def buildSnapshots (K : Nat) (log : List Event) : List (Nat × Str) :=
  (log.enum.foldl (snapshotStep K) ([(0, ([] : Str))], ([] : Str))).1

/-- The snapshot search of `ReplayEngine.seekTo` (replay.js lines
152-155): the largest recorded snapshot index that is at most the target,
starting from 0. -/
def nearestSnapshotIndex (snapshots : List (Nat × Str)) (index : Nat) : Nat :=
  snapshots.foldl (fun acc p => if p.1 ≤ index ∧ acc < p.1 then p.1 else acc) 0

/-- The `this._snapshots.get(snapshotIndex) || ''` read of `seekTo`
(replay.js line 157); map keys are unique so the first match is the
entry, and a missing key falls back to the empty string. -/
def snapshotGet (snapshots : List (Nat × Str)) (k : Nat) : Str :=
  (((snapshots.filter (fun p => p.1 = k)).head?).map Prod.snd).getD []

/-- The content computed by `ReplayEngine.seekTo` (replay.js lines
146-167), generalised over the snapshot interval: start from the nearest
snapshot at or before the target and apply the events from the snapshot
index up to, but excluding, the target (clamped to the log length). -/
def seekContent (K : Nat) (log : List Event) (index : Nat) : Str :=
  let snapshots := buildSnapshots K log
  let snapshotIndex := nearestSnapshotIndex snapshots index
  let start := snapshotGet snapshots snapshotIndex
  ((log.take index).drop snapshotIndex).foldl applyEvent start

/-- The export record built by `exportToJSON` (features/export.js):
version tag, document metadata, content, links, keystroke log, chain hash
and metadata block.  No field records which digest primitive produced the
hashes. -/
structure ExportData where
  version : Str
  id : Str
  title : Str
  createdAt : Str
  lastModified : Str
  content : Str
  links : List Str
  keystrokeLog : Option (List Event)
  chainHash : Str
  metadata : Metadata
deriving DecidableEq

/-- Shallow embedding of the data assembled by `exportToJSON`
(features/export.js): a pure projection of the document. -/
def exportToJSON (doc : Doc) : ExportData :=
  ⟨['2', '.', '0'], doc.id, doc.title, doc.createdAt, doc.lastModified,
    doc.content, doc.links, doc.keystrokeLog, doc.chainHash, doc.metadata⟩

/-- Reference value for stating the cumulative-chain recurrence: the
stored cumulative hash preceding position `k`, which is the starting
value `prev` for `k = 0` and the stored cumulative hash of checkpoint
`k - 1` otherwise. -/
def prevAt (prev : Str) (chain : List Checkpoint) (k : Nat) : Str :=
  match k with
  | 0 => prev
  | m + 1 => ((chain.get? m).map Checkpoint.cumulativeHash).getD prev

/-- Reference list of the cumulative-hash-mismatch entries that the chain
pass of `verifyDocument` produces when started at position `n` with
previous stored value `prev`; used to characterise the fold. -/
def entriesFrom (digest : Str → Str) : Nat → Str → List Checkpoint → List InvalidEntry
  | _, _, [] => []
  | n, prev, cp :: rest =>
    let expected := digest (prev ++ cp.contentHash)
    (if expected = cp.cumulativeHash then []
     else [.cumulativeHashMismatch n expected cp.cumulativeHash])
      ++ entriesFrom digest (n + 1) cp.cumulativeHash rest

/-- Convenience constructor for the concrete documents of the examples:
the string metadata fields play no role in verification and are empty. -/
def mkDoc (content : Str) (log : Option (List Event)) (chain : List Checkpoint) : Doc :=
  ⟨[], [], [], [], content, [], log, [], chain, ⟨0, 0, 0, 0⟩⟩

/-- Concrete event: insert the character H at position 0 at time 0. -/
def evH0 : Event := ⟨0, .insert, 0, ['H'], 1⟩

/-- Concrete one-event log: insert the character H at position 0. -/
def logH : List Event := [evH0]

/-- Checkpoint at keystroke 0 whose hashes are consistent with `logH`
under the fallback digest. -/
def cpH : Checkpoint :=
  ⟨0, 0, fallbackDigest ['H'], fallbackDigest (['0'] ++ fallbackDigest ['H'])⟩

/-- Document with a fully valid chain over `logH` but a declared content
field (the character X) that differs from the replayed content H. -/
def c1Doc : Doc := mkDoc ['X'] (some logH) [cpH]

/-- Log whose final delete records the payload X although the character
actually at position 0 of the content at that point is H. -/
def c2Log : List Event :=
  [⟨0, .insert, 0, ['H'], 1⟩, ⟨1, .insert, 1, ['i'], 1⟩, ⟨2, .delete, 0, ['X'], 1⟩]

/-- Document over `c2Log` with no checkpoints. -/
def c2Doc : Doc := mkDoc ['i'] (some c2Log) []

/-- Document with a valid chain over `logH` and matching content. -/
def c3DocA : Doc := mkDoc ['H'] (some logH) [cpH]

/-- The same document as `c3DocA` except that the single event's
sequence time has been altered from 0 to 999. -/
def c3DocB : Doc := mkDoc ['H'] (some [⟨999, .insert, 0, ['H'], 1⟩]) [cpH]

/-- Well-formed two-event log whose last sequence time is 100. -/
def c4Log : List Event :=
  [⟨0, .insert, 0, ['H'], 1⟩, ⟨100, .insert, 1, ['i'], 1⟩]

/-- Event violating both stated append-time invariants relative to
`c4Log`: its sequence time 50 is below the previous event's 100, and its
position 99 exceeds the current content length 2. -/
def c4Bad : Event := ⟨50, .delete, 99, ['z'], 1⟩

/-- Log whose middle event is a delete at position 5 although the content
at that point has length 1: a structural error in the spec's taxonomy. -/
def c5Log : List Event :=
  [⟨0, .insert, 0, ['H'], 1⟩, ⟨1, .delete, 5, ['x', 'y', 'z'], 3⟩,
   ⟨2, .insert, 1, ['i'], 1⟩]

/-- Checkpoint at keystroke 2 consistent with `c5Log` under the fallback
digest (the out-of-range delete is clamped to a no-op by `deleteAt`). -/
def c5Cp : Checkpoint :=
  ⟨2, 2, fallbackDigest ['H', 'i'], fallbackDigest (['0'] ++ fallbackDigest ['H', 'i'])⟩

/-- Document over the malformed `c5Log` with its consistent checkpoint. -/
def c5Doc : Doc := mkDoc ['H', 'i'] (some c5Log) [c5Cp]

/-- Document whose stored checkpoint hashes are 64-character values of
the shape produced by the strong SHA-256 path, to be verified in an
environment that only has the 16-character fallback digest. -/
def c6Doc : Doc :=
  mkDoc ['H'] (some logH) [⟨0, 0, List.replicate 64 'a', List.replicate 64 'b'⟩]

/-- Document with an empty (present) keystroke log and a stored
cumulative hash that violates the chain recurrence: the stored value is
the character w although the recurrence from genesis gives the digest of
the string 0z. -/
def c8Doc : Doc := mkDoc [] (some []) [⟨0, 0, ['z'], ['w']⟩]

/-- Document with an absent keystroke log and an internally inconsistent
non-empty hash chain. -/
def c10Doc : Doc := mkDoc [] none [⟨0, 0, ['z'], ['w']⟩]

/-- Concrete cursor-move event. -/
def moveEv : Event := ⟨5, .move, 3, [], 0⟩

/-! ## Theorems -/

/-- Replaying zero events yields the empty content. -/
theorem contentAt_zero (log : List Event) : contentAt log 0 = [] := rfl

/-- Replaying one more event applies that event to the previous content. -/
theorem contentAt_succ {log : List Event} {n : Nat} {e : Event}
    (h : log.get? n = some e) :
    contentAt log (n + 1) = applyEvent (contentAt log n) e := by
  have h' : log[n]? = some e := by rwa [List.get?_eq_getElem?] at h
  simp [contentAt, List.take_succ, h', List.foldl_append]

/-- The append step is list concatenation: every pushed event ends up at
the end of the log, unconditionally. -/
theorem appendEvents_eq (log events : List Event) :
    appendEvents log events = log ++ events := by
  induction events generalizing log with
  | nil => simp [appendEvents]
  | cons e es ih =>
    have h : appendEvents log (e :: es) = appendEvents (log ++ [e]) es := rfl
    rw [h, ih, List.append_assoc, List.singleton_append]

/-- C10: for every document whose keystrokeLog is empty or absent,
verifyDocument returns isValid = true with validCheckpoints = 0 and an
empty invalidCheckpoints list, without performing the cumulative
hash-chain verification, even when the document's hashChain is non-empty
or internally inconsistent. -/
theorem c10_empty_log_trivially_valid (digest : Str → Str) (doc : Doc)
    (h : doc.keystrokeLog = none ∨ doc.keystrokeLog = some []) :
    verifyDocument digest doc = ⟨doc.hashChain.length, 0, [], true⟩ := by
  rcases h with h | h <;> simp [verifyDocument, h]

/-- Witness for C10: a concrete document with an absent log and an
inconsistent non-empty hash chain still verifies as trivially valid. -/
theorem c10_witness :
    (c10Doc.keystrokeLog = none ∨ c10Doc.keystrokeLog = some []) ∧
      verifyDocument fallbackDigest c10Doc = ⟨1, 0, [], true⟩ :=
  ⟨Or.inl rfl, c10_empty_log_trivially_valid fallbackDigest c10Doc (Or.inl rfl)⟩

/-- C1 (amended): verifyDocument returns a single combined isValid flag
together with checkpoint counts and the list of failed checkpoint
entries; it never compares the recomputed content against the document's
declared final content field and reports no divergence index, so its
result is entirely independent of the declared content field. -/
theorem c1_verify_ignores_declared_content (digest : Str → Str) (doc : Doc) (c : Str) :
    verifyDocument digest {doc with content := c} = verifyDocument digest doc := rfl

/-- Counterexample to C1 as stated: a document with a fully valid chain
whose declared content field was altered to X (the replayed content is H)
still verifies with the single validity flag true and no reported
failures, rather than reporting a separate content-validity false. -/
theorem c1_counterexample :
    verifyDocument fallbackDigest c1Doc = ⟨1, 1, [], true⟩ ∧
      c1Doc.keystrokeLog = some logH ∧ contentAt logH 1 ≠ c1Doc.content := by
  decide

/-- C2 (amended): applying a Delete during replay removes length
characters at the event position by pure slicing; the event's recorded
payload is never consulted, so a payload that does not match the content
is not detected and no content-divergence error is raised. -/
theorem c2_delete_ignores_payload (content : Str) (e : Event) (c' : Str)
    (h : e.type = .delete) :
    applyEvent content e =
        content.take e.position ++ content.drop (e.position + e.length) ∧
      applyEvent content {e with char := c'} = applyEvent content e := by
  constructor
  · simp [applyEvent, h, deleteAt]
  · simp [applyEvent, h]

/-- Witness for the amended C2 at a concrete delete event. -/
theorem c2_witness :
    (⟨2, .delete, 0, ['X'], 1⟩ : Event).type = .delete ∧
      (applyEvent ['H', 'i'] ⟨2, .delete, 0, ['X'], 1⟩ =
          (['H', 'i'] : Str).take 0 ++ (['H', 'i'] : Str).drop (0 + 1) ∧
        applyEvent ['H', 'i'] {(⟨2, .delete, 0, ['X'], 1⟩ : Event) with char := ['Q']} =
          applyEvent ['H', 'i'] ⟨2, .delete, 0, ['X'], 1⟩) :=
  ⟨rfl, c2_delete_ignores_payload ['H', 'i'] ⟨2, .delete, 0, ['X'], 1⟩ ['Q'] rfl⟩

/-- Counterexample to C2 as stated: the delete at index 2 of `c2Log`
records the payload X although the content there starts with H; replay
silently removes one character anyway (yielding the content i) and
verification reports no error of any kind. -/
theorem c2_counterexample :
    (contentAt c2Log 2).take 1 = ['H'] ∧
      (c2Log.get? 2).map Event.char = some ['X'] ∧
      contentAt c2Log 3 = ['i'] ∧
      verifyDocument fallbackDigest c2Doc = ⟨0, 0, [], true⟩ := by
  decide

/-- C4 (amended): the append path pushes every constructed event onto the
keystroke log unconditionally; no structural validation of positions or
sequence times happens at append time, so every event is accepted. -/
theorem c4_append_accepts_everything (log events : List Event)
    (e : Event) (he : e ∈ events) :
    appendEvents log events = log ++ events ∧ e ∈ appendEvents log events := by
  refine ⟨appendEvents_eq log events, ?_⟩
  rw [appendEvents_eq]
  exact List.mem_append_right log he

/-- Witness for the amended C4: the malformed event is accepted. -/
theorem c4_witness :
    c4Bad ∈ [c4Bad] ∧
      (appendEvents c4Log [c4Bad] = c4Log ++ [c4Bad] ∧
        c4Bad ∈ appendEvents c4Log [c4Bad]) :=
  ⟨List.mem_singleton_self c4Bad,
    c4_append_accepts_everything c4Log [c4Bad] c4Bad (List.mem_singleton_self c4Bad)⟩

/-- Counterexample to C4 as stated: an event whose sequence time 50 is
below the previous event's 100 and whose position 99 exceeds the current
content length is accepted into the log by the append step, with no
structural error at append time. -/
theorem c4_counterexample :
    c4Bad ∈ appendEvents c4Log [c4Bad] ∧
      (c4Log.get? 1).map Event.timestamp = some 100 ∧
      c4Bad.timestamp < 100 ∧
      (contentAt c4Log 2).length < c4Bad.position := by
  decide

/-- C9: a Move event never changes content, in the shared per-event
application, in the verification replay step, in snapshot building, and
at any position of a replayed log (play and seek both fold the same
per-event application). -/
theorem c9_move_never_changes_content (c : Str) (e : Event) (h : e.type = .move) :
    applyEvent c e = c ∧
      (∀ (digest : Str → Str) (chain : List Checkpoint) (r : VerifyResult) (i : Nat),
        (replayStep digest chain (c, r) (i, e)).1 = c) ∧
      (∀ (K : Nat) (snaps : List (Nat × Str)) (i : Nat),
        (snapshotStep K (snaps, c) (i, e)).2 = c) ∧
      ∀ (l₁ l₂ : List Event),
        contentAt (l₁ ++ e :: l₂) (l₁.length + 1) =
          contentAt (l₁ ++ e :: l₂) l₁.length := by
  have ha : ∀ s : Str, applyEvent s e = s := by intro s; simp [applyEvent, h]
  refine ⟨ha c, ?_, ?_, ?_⟩
  · intro digest chain r i
    unfold replayStep
    cases hm : checkpointMapGet chain (i : Int) with
    | none => simp [ha, hm]
    | some cp =>
      simp only [ha, hm]
      split <;> rfl
  · intro K snaps i
    unfold snapshotStep
    split <;> simp [ha]
  · intro l₁ l₂
    have h1 : (l₁ ++ e :: l₂).take (l₁.length + 1) = l₁ ++ [e] := by
      have := @List.take_append Event l₁ (e :: l₂) 1
      simpa using this
    have h2 : (l₁ ++ e :: l₂).take l₁.length = l₁ := List.take_left l₁ (e :: l₂)
    simp [contentAt, h1, h2, List.foldl_append, ha]

/-- Witness for C9 at a concrete move event. -/
theorem c9_witness : applyEvent ['a'] moveEv = ['a'] :=
  (c9_move_never_changes_content ['a'] moveEv rfl).1

/-- Events with equal projections are applied identically. -/
theorem applyEvent_congr (c : Str) {e e' : Event} (h : eraseT e = eraseT e') :
    applyEvent c e = applyEvent c e' := by
  cases e
  cases e'
  simp only [eraseT, Event.mk.injEq] at h
  obtain ⟨-, h1, h2, h3, h4⟩ := h
  subst h1 h2 h3 h4
  rfl

/-- Zeroing the timestamp of an updated-timestamp event gives the same
projection as the original. -/
theorem eraseT_set_timestamp (e : Event) (t : Nat) :
    eraseT {e with timestamp := t} = eraseT e := by
  cases e
  rfl

/-- One replay-verification step only reads the projected event fields. -/
theorem replayStep_congr (digest : Str → Str) (chain : List Checkpoint)
    (st : Str × VerifyResult) (n : Nat) {e e' : Event}
    (h : eraseT e = eraseT e') :
    replayStep digest chain st (n, e) = replayStep digest chain st (n, e') := by
  unfold replayStep
  rw [applyEvent_congr st.1 h]

/-- The whole replay-verification fold only reads the projected fields. -/
theorem replayFold_congr (digest : Str → Str) (chain : List Checkpoint) :
    ∀ (l l' : List Event), l.map eraseT = l'.map eraseT →
      ∀ (n : Nat) (st : Str × VerifyResult),
        (l.enumFrom n).foldl (replayStep digest chain) st =
          (l'.enumFrom n).foldl (replayStep digest chain) st := by
  intro l
  induction l with
  | nil =>
    intro l' h n st
    cases l' with
    | nil => rfl
    | cons e' es' => simp at h
  | cons e es ih =>
    intro l' h n st
    cases l' with
    | nil => simp at h
    | cons e' es' =>
      simp only [List.map_cons, List.cons.injEq] at h
      show (es.enumFrom (n + 1)).foldl (replayStep digest chain)
            (replayStep digest chain st (n, e)) = _
      rw [replayStep_congr digest chain st n h.1]
      exact ih es' h.2 (n + 1) (replayStep digest chain st (n, e'))

/-- C3 (amended): the verification of src/core/hashing.js recomputes no
per-event chain head; it replays content and checks checkpoint digests
only, none of which read the sequence time, so altering the sequence-time
field of any single event of any document leaves the entire verification
result unchanged — no divergence is detected or reported. -/
theorem c3_timestamp_alteration_undetected (digest : Str → Str) (doc : Doc)
    (l₁ : List Event) (e : Event) (l₂ : List Event) (t : Nat)
    (h : doc.keystrokeLog = some (l₁ ++ e :: l₂)) :
    verifyDocument digest
        {doc with keystrokeLog := some (l₁ ++ {e with timestamp := t} :: l₂)} =
      verifyDocument digest doc := by
  obtain ⟨id, title, createdAt, lastModified, content, links, klog, chainHash,
    hashChain, metadata⟩ := doc
  simp only at h
  subst h
  simp only [verifyDocument]
  have hne : l₁ ++ {e with timestamp := t} :: l₂ ≠ [] := by simp
  have hne' : l₁ ++ e :: l₂ ≠ [] := by simp
  rw [if_neg hne, if_neg hne']
  have hmap : (l₁ ++ {e with timestamp := t} :: l₂).map eraseT =
      (l₁ ++ e :: l₂).map eraseT := by
    simp [eraseT_set_timestamp]
  have henum : ∀ (l : List Event), l.enum = l.enumFrom 0 := fun _ => rfl
  rw [henum, henum, replayFold_congr digest hashChain _ _ hmap 0]

/-- Witness for the amended C3: altering the single event's timestamp of
a concretely valid document leaves verification unchanged. -/
theorem c3_witness :
    c3DocA.keystrokeLog = some ([] ++ evH0 :: []) ∧
      verifyDocument fallbackDigest
          {c3DocA with keystrokeLog := some ([] ++ {evH0 with timestamp := 999} :: [])} =
        verifyDocument fallbackDigest c3DocA :=
  ⟨rfl, c3_timestamp_alteration_undetected fallbackDigest c3DocA [] evH0 [] 999 rfl⟩

/-- Counterexample to C3 as stated: flipping the sequence-time field of
the single event of an otherwise-valid document (from 0 to 999) leaves
the recomputed verification outcome bit-for-bit identical and fully
valid; nothing diverges and no divergence index exists in the result. -/
theorem c3_counterexample :
    c3DocA ≠ c3DocB ∧
      c3DocB = {c3DocA with keystrokeLog := some [⟨999, .insert, 0, ['H'], 1⟩]} ∧
      verifyDocument fallbackDigest c3DocA = ⟨1, 1, [], true⟩ ∧
      verifyDocument fallbackDigest c3DocB = ⟨1, 1, [], true⟩ := by
  decide

/-- C5 (amended): insertAt and deleteAt clamp out-of-range positions by
slice semantics (an insert past the end appends, a delete past the end
removes nothing); replay applies every event of the log with no abort,
and the only error classes a verification result can carry are the two
hash-mismatch shapes — no structural-error class exists. -/
theorem c5_structural_errors_not_reported (s : Str) (p len : Nat) (c : Str)
    (digest : Str → Str) (doc : Doc) (x : InvalidEntry)
    (hp : s.length ≤ p) (hx : x ∈ (verifyDocument digest doc).invalidCheckpoints) :
    insertAt s p c = s ++ c ∧ deleteAt s p len = s ∧
      ((∃ i e a, x = InvalidEntry.contentHashMismatch i e a) ∨
        (∃ j e a, x = InvalidEntry.cumulativeHashMismatch j e a)) ∧
      ∀ (l₁ l₂ : List Event) (e : Event),
        contentAt (l₁ ++ e :: l₂) (l₁ ++ e :: l₂).length =
          l₂.foldl applyEvent (applyEvent (contentAt l₁ l₁.length) e) := by
  refine ⟨?_, ?_, ?_, ?_⟩
  · simp [insertAt, List.take_of_length_le hp, List.drop_eq_nil_of_le hp]
  · simp [deleteAt, List.take_of_length_le hp,
      List.drop_eq_nil_of_le (le_trans hp (Nat.le_add_right p len))]
  · cases x with
    | contentHashMismatch i e a => exact Or.inl ⟨i, e, a, rfl⟩
    | cumulativeHashMismatch j e a => exact Or.inr ⟨j, e, a, rfl⟩
  · intro l₁ l₂ e
    simp only [contentAt, List.take_length]
    rw [List.foldl_append]
    rfl

/-- Witness for the amended C5 at concrete inputs (a one-character
content with an out-of-range position 5, and a verification result that
actually carries an entry). -/
theorem c5_witness :
    (['H'] : Str).length ≤ 5 ∧ insertAt ['H'] 5 ['Q'] = ['H'] ++ ['Q'] :=
  ⟨by decide,
    (c5_structural_errors_not_reported ['H'] 5 3 ['Q'] fallbackDigest c6Doc
      (InvalidEntry.contentHashMismatch 0 (List.replicate 64 'a') (fallbackDigest ['H']))
      (by decide) (by decide)).1⟩

/-- Counterexample to C5 as stated: the event at index 1 of `c5Log` has
position 5 while the content there has length 1 (a structural error);
replay does not abort (the later insert at index 2 is still applied,
yielding the content Hi) and verification reports full validity with no
offending index and no error entry of any class. -/
theorem c5_counterexample :
    (c5Log.get? 1).map Event.position = some 5 ∧
      (contentAt c5Log 1).length = 1 ∧
      contentAt c5Log 3 = ['H', 'i'] ∧
      verifyDocument fallbackDigest c5Doc = ⟨1, 1, [], true⟩ := by
  decide

/-- C6 (amended): hash values are bare hex strings carrying no tag of the
primitive that produced them, exported documents record no such flag, and
verifyDocument compares the hash recomputed with whatever digest the
verifying environment provides directly against the stored hashes by raw
string equality — including a fallback-produced hash against a stored
strong-primitive hash. -/
theorem c6_untagged_hashes_compared_raw (digest : Str → Str) (e : Event)
    (cp : Checkpoint) (doc : Doc)
    (h1 : doc.keystrokeLog = some [e]) (h2 : doc.hashChain = [cp])
    (h3 : cp.keystrokeIndex = 0) :
    (verifyDocument digest doc).validCheckpoints =
        (if digest (applyEvent [] e) = cp.contentHash then 1 else 0) ∧
      (verifyDocument digest doc).isValid =
        (decide (digest (applyEvent [] e) = cp.contentHash) &&
          decide (digest (['0'] ++ cp.contentHash) = cp.cumulativeHash)) := by
  simp only [verifyDocument, h1, h2, List.enum, List.enumFrom, List.foldl_cons,
    List.foldl_nil, replayStep, cumulStep, checkpointMapGet, List.filter, h3,
    List.singleton_append]
  by_cases hcc : digest (applyEvent [] e) = cp.contentHash <;>
    by_cases hcu : digest ('0' :: cp.contentHash) = cp.cumulativeHash <;>
      simp [hcc, hcu]

/-- Witness for the amended C6: a document whose stored hashes are
64-character strong-format values, verified with the 16-character
fallback digest. -/
theorem c6_witness :
    c6Doc.hashChain = [⟨0, 0, List.replicate 64 'a', List.replicate 64 'b'⟩] ∧
      (verifyDocument fallbackDigest c6Doc).validCheckpoints =
        (if fallbackDigest (applyEvent [] ⟨0, .insert, 0, ['H'], 1⟩) =
            (⟨0, 0, List.replicate 64 'a', List.replicate 64 'b'⟩ : Checkpoint).contentHash
         then 1 else 0) :=
  ⟨rfl, (c6_untagged_hashes_compared_raw fallbackDigest ⟨0, .insert, 0, ['H'], 1⟩
    ⟨0, 0, List.replicate 64 'a', List.replicate 64 'b'⟩ c6Doc rfl rfl rfl).1⟩

/-- Counterexample to C6 as stated: verification under the fallback
digest of a document whose stored checkpoint records 64-character
strong-format hashes performs the equality comparisons anyway and reports
plain hash mismatches whose expected and actual values come from the two
different primitives (64 versus 16 characters); no flag prevents or marks
the cross-primitive comparison, and the export record carries none. -/
theorem c6_counterexample :
    verifyDocument fallbackDigest c6Doc =
      ⟨1, 0,
        [InvalidEntry.contentHashMismatch 0 (List.replicate 64 'a') (fallbackDigest ['H']),
         InvalidEntry.cumulativeHashMismatch 0
           (fallbackDigest (['0'] ++ List.replicate 64 'a')) (List.replicate 64 'b')],
        false⟩ ∧
      (fallbackDigest ['H']).length = 16 ∧
      (exportToJSON c6Doc).chainHash = c6Doc.chainHash := by
  decide

/-- Invariant of the snapshot-building fold: starting at position `n`
with the replayed content of the first `n` events and a list of snapshot
pairs that each record the replayed content at their index, every pair
recorded by the rest of the fold also records the replayed content at
its index. -/
theorem snapFold_inv (K : Nat) (log : List Event) :
    ∀ (l : List Event) (n : Nat), log.drop n = l →
      ∀ (snaps : List (Nat × Str)) (c : Str), c = contentAt log n →
        (∀ p ∈ snaps, p.2 = contentAt log p.1) →
        ∀ p ∈ ((l.enumFrom n).foldl (snapshotStep K) (snaps, c)).1,
          p.2 = contentAt log p.1 := by
  intro l
  induction l with
  | nil =>
    intro n hdrop snaps c hc hsnaps p hp
    exact hsnaps p hp
  | cons e l' ih =>
    intro n hdrop snaps c hc hsnaps p hp
    have hget : log.get? n = some e := by
      have h := List.get?_drop log n 0
      rw [hdrop] at h
      simpa using h.symm
    have hdrop' : log.drop (n + 1) = l' := by
      have h := List.drop_drop 1 n log
      rw [hdrop] at h
      simpa using h.symm
    have hstep : ((e :: l').enumFrom n).foldl (snapshotStep K) (snaps, c) =
        (l'.enumFrom (n + 1)).foldl (snapshotStep K)
          (snapshotStep K (snaps, c) (n, e)) := rfl
    rw [hstep] at hp
    have hc' : applyEvent c e = contentAt log (n + 1) := by
      rw [hc, ← contentAt_succ hget]
    by_cases hK : (n + 1) % K = 0
    · rw [show snapshotStep K (snaps, c) (n, e) =
          (snaps ++ [(n + 1, applyEvent c e)], applyEvent c e) from by
        simp [snapshotStep, hK]] at hp
      refine ih (n + 1) hdrop' (snaps ++ [(n + 1, applyEvent c e)])
        (applyEvent c e) hc' ?_ p hp
      intro q hq
      rcases List.mem_append.mp hq with hq' | hq'
      · exact hsnaps q hq'
      · have hqe := List.mem_singleton.mp hq'
        subst hqe
        exact hc'
    · rw [show snapshotStep K (snaps, c) (n, e) = (snaps, applyEvent c e) from by
        simp [snapshotStep, hK]] at hp
      exact ih (n + 1) hdrop' snaps (applyEvent c e) hc' hsnaps p hp

/-- Every snapshot recorded by `buildSnapshots` holds the content
replayed from the empty string over the first entries of the log. -/
theorem buildSnapshots_mem (K : Nat) (log : List Event) :
    ∀ p ∈ buildSnapshots K log, p.2 = contentAt log p.1 := by
  intro p hp
  have h0 : ∀ q ∈ [((0 : Nat), ([] : Str))], q.2 = contentAt log q.1 := by
    intro q hq
    have hq0 := List.mem_singleton.mp hq
    subst hq0
    rfl
  exact snapFold_inv K log log 0 (List.drop_zero log) [(0, [])] [] rfl h0 p hp

/-- The seed entry at index 0 survives the snapshot-building fold. -/
theorem buildSnapshots_zero_mem (K : Nat) (log : List Event) :
    ((0 : Nat), ([] : Str)) ∈ buildSnapshots K log := by
  unfold buildSnapshots
  refine List.foldlRecOn
    (motive := fun st : List (Nat × Str) × Str => ((0 : Nat), ([] : Str)) ∈ st.1)
    log.enum (snapshotStep K) ([(0, [])], []) (List.mem_singleton_self _) ?_
  intro st hst a ha
  unfold snapshotStep
  split
  · exact List.mem_append_left _ hst
  · exact hst

/-- The nearest-snapshot search returns an index at most the target
which is either 0 or the key of a recorded snapshot. -/
theorem nearestSnapshotIndex_spec (snaps : List (Nat × Str)) (index : Nat) :
    nearestSnapshotIndex snaps index ≤ index ∧
      (nearestSnapshotIndex snaps index = 0 ∨
        ∃ c, (nearestSnapshotIndex snaps index, c) ∈ snaps) := by
  unfold nearestSnapshotIndex
  refine List.foldlRecOn
    (motive := fun acc : Nat => acc ≤ index ∧ (acc = 0 ∨ ∃ c, (acc, c) ∈ snaps))
    snaps _ 0 ⟨Nat.zero_le index, Or.inl rfl⟩ ?_
  intro acc hacc p hp
  by_cases h : p.1 ≤ index ∧ acc < p.1
  · simp only [if_pos h]
    exact ⟨h.1, Or.inr ⟨p.2, hp⟩⟩
  · simp only [if_neg h]
    exact hacc

/-- Reading the snapshot cache at a recorded key returns the replayed
content at that key. -/
theorem snapshotGet_eq (K : Nat) (log : List Event) (k : Nat) (c₀ : Str)
    (hmem : (k, c₀) ∈ buildSnapshots K log) :
    snapshotGet (buildSnapshots K log) k = contentAt log k := by
  unfold snapshotGet
  cases hf : (buildSnapshots K log).filter (fun p => p.1 = k) with
  | nil =>
    exfalso
    have hall := List.filter_eq_nil_iff.mp hf
    exact absurd (by simp) (hall _ hmem)
  | cons q t =>
    have hq : q ∈ (buildSnapshots K log).filter (fun p => p.1 = k) := by
      rw [hf]
      exact List.mem_cons_self q t
    have hq1 : q ∈ buildSnapshots K log := List.mem_of_mem_filter hq
    have hq2 : q.1 = k := by
      have hd := List.of_mem_filter hq
      exact of_decide_eq_true hd
    have hq3 := buildSnapshots_mem K log q hq1
    simp [hq3, hq2]

/-- C7: for every log, every index and every snapshot interval, the
content produced by seeking (nearest snapshot at or before the index plus
incremental application of the remaining events) equals the content
obtained by replaying the first events from the empty string; the
snapshot granularity never changes the result. -/
theorem c7_seek_independent_of_snapshots (K : Nat) (log : List Event) (index : Nat) :
    seekContent K log index = contentAt log index := by
  unfold seekContent
  show ((log.take index).drop (nearestSnapshotIndex (buildSnapshots K log) index)).foldl
      applyEvent
      (snapshotGet (buildSnapshots K log) (nearestSnapshotIndex (buildSnapshots K log) index)) =
    contentAt log index
  obtain ⟨hle, hmem⟩ := nearestSnapshotIndex_spec (buildSnapshots K log) index
  have hmem' : ∃ c₀, (nearestSnapshotIndex (buildSnapshots K log) index, c₀) ∈
      buildSnapshots K log := by
    rcases hmem with h0 | h
    · exact ⟨[], by rw [h0]; exact buildSnapshots_zero_mem K log⟩
    · exact h
  obtain ⟨c₀, hc₀⟩ := hmem'
  rw [snapshotGet_eq K log _ c₀ hc₀]
  have htt : (log.take index).take (nearestSnapshotIndex (buildSnapshots K log) index) =
      log.take (nearestSnapshotIndex (buildSnapshots K log) index) := by
    rw [List.take_take]
    congr 1
    exact min_eq_left hle
  have hsplit : log.take index =
      log.take (nearestSnapshotIndex (buildSnapshots K log) index) ++
        (log.take index).drop (nearestSnapshotIndex (buildSnapshots K log) index) := by
    rw [← htt, List.take_append_drop]
  calc ((log.take index).drop (nearestSnapshotIndex (buildSnapshots K log) index)).foldl
        applyEvent (contentAt log (nearestSnapshotIndex (buildSnapshots K log) index))
      = (log.take (nearestSnapshotIndex (buildSnapshots K log) index) ++
          (log.take index).drop (nearestSnapshotIndex (buildSnapshots K log) index)).foldl
            applyEvent [] := (List.foldl_append _ _ _ _).symm
    _ = (log.take index).foldl applyEvent [] := by rw [← hsplit]
    _ = contentAt log index := rfl

/-- The previous-value function steps down along a cons. -/
theorem prevAt_cons (prev : Str) (cp : Checkpoint) (rest : List Checkpoint)
    (k : Nat) (hk : k < rest.length) :
    prevAt prev (cp :: rest) (k + 1) = prevAt cp.cumulativeHash rest k := by
  cases k with
  | zero => rfl
  | succ m =>
    have hm : m < rest.length := Nat.lt_of_succ_lt hk
    have hcpm : rest[m]? = some rest[m] := List.getElem?_eq_getElem hm
    simp [prevAt, hcpm]

/-- Full characterisation of the cumulative-chain fold of
`verifyDocument`: it returns the entries of `entriesFrom` appended to the
incoming list, leaves the checkpoint counts unchanged, and clears the
validity flag exactly when some entry was produced. -/
theorem cumulFold_spec (digest : Str → Str) :
    ∀ (chain : List Checkpoint) (n : Nat) (prev : Str) (r : VerifyResult),
      ((chain.enumFrom n).foldl (cumulStep digest) (prev, r)).2 =
        ⟨r.totalCheckpoints, r.validCheckpoints,
          r.invalidCheckpoints ++ entriesFrom digest n prev chain,
          r.isValid && (entriesFrom digest n prev chain).isEmpty⟩ := by
  intro chain
  induction chain with
  | nil =>
    intro n prev r
    simp [entriesFrom]
  | cons cp rest ih =>
    intro n prev r
    show ((rest.enumFrom (n + 1)).foldl (cumulStep digest)
        (cumulStep digest (prev, r) (n, cp))).2 = _
    by_cases h : digest (prev ++ cp.contentHash) = cp.cumulativeHash
    · rw [show cumulStep digest (prev, r) (n, cp) = (cp.cumulativeHash, r) from by
        simp [cumulStep, h]]
      rw [ih (n + 1) cp.cumulativeHash r]
      simp [entriesFrom, h]
    · rw [show cumulStep digest (prev, r) (n, cp) =
          (cp.cumulativeHash,
            ⟨r.totalCheckpoints, r.validCheckpoints,
              r.invalidCheckpoints ++
                [InvalidEntry.cumulativeHashMismatch n
                  (digest (prev ++ cp.contentHash)) cp.cumulativeHash],
              false⟩) from by simp [cumulStep, h]]
      rw [ih (n + 1) cp.cumulativeHash _]
      simp [entriesFrom, h]

/-- Membership in the reference entry list is equivalent to a mismatch of
the stored cumulative hash against the digest of the stored previous
value concatenated with the stored content hash. -/
theorem mem_entriesFrom (digest : Str → Str) :
    ∀ (chain : List Checkpoint) (n : Nat) (prev : Str) (j : Nat) (e a : Str),
      (InvalidEntry.cumulativeHashMismatch j e a ∈ entriesFrom digest n prev chain) ↔
        ∃ k cp, chain.get? k = some cp ∧ j = n + k ∧
          e = digest (prevAt prev chain k ++ cp.contentHash) ∧
          a = cp.cumulativeHash ∧ e ≠ a := by
  intro chain
  induction chain with
  | nil =>
    intro n prev j e a
    simp [entriesFrom]
  | cons cp rest ih =>
    intro n prev j e a
    constructor
    · intro hmem
      rw [show entriesFrom digest n prev (cp :: rest) =
          (if digest (prev ++ cp.contentHash) = cp.cumulativeHash then []
           else [InvalidEntry.cumulativeHashMismatch n
             (digest (prev ++ cp.contentHash)) cp.cumulativeHash]) ++
            entriesFrom digest (n + 1) cp.cumulativeHash rest from rfl] at hmem
      rcases List.mem_append.mp hmem with hhead | htail
      · by_cases h : digest (prev ++ cp.contentHash) = cp.cumulativeHash
        · rw [if_pos h] at hhead
          exact absurd hhead (List.not_mem_nil _)
        · rw [if_neg h] at hhead
          have heq := List.mem_singleton.mp hhead
          injection heq with hj he ha
          refine ⟨0, cp, rfl, by omega, he, ha, ?_⟩
          rw [he, ha]
          exact h
      · obtain ⟨k, cp', hget, hj, he, ha, hne⟩ := ih (n + 1) cp.cumulativeHash j e a |>.mp htail
        have hlt : k < rest.length := by
          by_contra hge
          rw [List.get?_eq_none.mpr (Nat.le_of_not_lt hge)] at hget
          exact Option.noConfusion hget
        refine ⟨k + 1, cp', ?_, by omega, ?_, ha, hne⟩
        · simpa using hget
        · rw [prevAt_cons prev cp rest k hlt]
          exact he
    · intro hex
      obtain ⟨k, cp', hget, hj, he, ha, hne⟩ := hex
      rw [show entriesFrom digest n prev (cp :: rest) =
          (if digest (prev ++ cp.contentHash) = cp.cumulativeHash then []
           else [InvalidEntry.cumulativeHashMismatch n
             (digest (prev ++ cp.contentHash)) cp.cumulativeHash]) ++
            entriesFrom digest (n + 1) cp.cumulativeHash rest from rfl]
      cases k with
      | zero =>
        have hcp : cp' = cp := by
          have h0 : (cp :: rest).get? 0 = some cp := rfl
          rw [h0] at hget
          exact (Option.some.injEq _ _ ▸ hget).symm
        subst hcp
        have hprev : prevAt prev (cp' :: rest) 0 = prev := rfl
        rw [hprev] at he
        have h : digest (prev ++ cp'.contentHash) ≠ cp'.cumulativeHash := by
          rw [← he, ← ha]
          exact hne
        refine List.mem_append.mpr (Or.inl ?_)
        rw [if_neg h]
        have hj0 : j = n := by omega
        subst hj0 he ha
        exact List.mem_singleton_self _
      | succ m =>
        have hget' : rest.get? m = some cp' := by simpa using hget
        have hlt : m < rest.length := by
          by_contra hge
          rw [List.get?_eq_none.mpr (Nat.le_of_not_lt hge)] at hget'
          exact Option.noConfusion hget'
        refine List.mem_append.mpr (Or.inr ?_)
        refine (ih (n + 1) cp.cumulativeHash j e a).mpr ⟨m, cp', hget', by omega, ?_, ha, hne⟩
        rw [← prevAt_cons prev cp rest m hlt]
        exact he

/-- Every entry produced by the replay pass of `verifyDocument` is a
content-hash mismatch; the cumulative shape only arises in the chain
pass. -/
theorem replayFold_entries_shape (digest : Str → Str) (chain : List Checkpoint)
    (l : List (Nat × Event)) (st : Str × VerifyResult)
    (hst : ∀ x ∈ st.2.invalidCheckpoints,
      ∃ i e a, x = InvalidEntry.contentHashMismatch i e a) :
    ∀ x ∈ (l.foldl (replayStep digest chain) st).2.invalidCheckpoints,
      ∃ i e a, x = InvalidEntry.contentHashMismatch i e a := by
  refine List.foldlRecOn
    (motive := fun s : Str × VerifyResult =>
      ∀ x ∈ s.2.invalidCheckpoints, ∃ i e a, x = InvalidEntry.contentHashMismatch i e a)
    l (replayStep digest chain) st hst ?_
  intro s hs p hp x hx
  unfold replayStep at hx
  split at hx
  · exact hs x hx
  · dsimp only at hx
    split at hx
    · exact hs x hx
    · dsimp only at hx
      rcases List.mem_append.mp hx with hold | hnew
      · exact hs x hold
      · have hxe := List.mem_singleton.mp hnew
        exact ⟨_, _, _, hxe⟩

/-- C8 (amended): the j-th checkpoint's cumulative hash is the digest of
the previous checkpoint's cumulative hash (the genesis value 0 for the
first) concatenated with its content digest, exactly as
`createHashCheckpoint` computes it; and for every document whose
keystroke log is present and non-empty, verification recomputes exactly
this recurrence from genesis — it records an invalid entry carrying
checkpoint index j if and only if the stored cumulative hash at j
differs from the digest of the stored previous cumulative hash
concatenated with the stored content hash, and any such entry forces the
overall result invalid.  (Documents with an empty or absent log skip the
chain pass entirely; see the counterexample.) -/
theorem c8_cumulative_chain_recurrence (digest : Str → Str) (doc : Doc)
    (log : List Event) (j : Nat) (e a : Str)
    (hlog : doc.keystrokeLog = some log) (hne : log ≠ []) :
    (∀ (d : Doc) (cArg : Option Str) (kArg : Option Nat),
      ((createHashCheckpoint digest d cArg kArg).2).cumulativeHash =
        digest ((match d.hashChain.getLast? with
                 | some cp => cp.cumulativeHash
                 | none => ['0']) ++
          ((createHashCheckpoint digest d cArg kArg).2).contentHash)) ∧
      ((InvalidEntry.cumulativeHashMismatch j e a ∈
          (verifyDocument digest doc).invalidCheckpoints) ↔
        ∃ cp, doc.hashChain.get? j = some cp ∧
          e = digest (prevAt ['0'] doc.hashChain j ++ cp.contentHash) ∧
          a = cp.cumulativeHash ∧ e ≠ a) ∧
      ((InvalidEntry.cumulativeHashMismatch j e a ∈
          (verifyDocument digest doc).invalidCheckpoints) →
        (verifyDocument digest doc).isValid = false) := by
  have hverify : verifyDocument digest doc =
      ((doc.hashChain.enumFrom 0).foldl (cumulStep digest)
        ((['0'] : Str),
          ((log.enumFrom 0).foldl (replayStep digest doc.hashChain)
            (([] : Str), ⟨doc.hashChain.length, 0, [], true⟩)).2)).2 := by
    simp only [verifyDocument, hlog, if_neg hne]
    rfl
  set R := ((log.enumFrom 0).foldl (replayStep digest doc.hashChain)
    (([] : Str), ⟨doc.hashChain.length, 0, [], true⟩)).2 with hR
  have hshape : ∀ x ∈ R.invalidCheckpoints,
      ∃ i e' a', x = InvalidEntry.contentHashMismatch i e' a' := by
    rw [hR]
    refine replayFold_entries_shape digest doc.hashChain (log.enumFrom 0)
      (([] : Str), ⟨doc.hashChain.length, 0, [], true⟩) ?_
    intro x hx
    exact absurd hx (List.not_mem_nil _)
  have hfold := cumulFold_spec digest doc.hashChain 0 ['0'] R
  have hinv : (verifyDocument digest doc).invalidCheckpoints =
      R.invalidCheckpoints ++ entriesFrom digest 0 ['0'] doc.hashChain := by
    rw [hverify, hfold]
  have hval : (verifyDocument digest doc).isValid =
      (R.isValid && (entriesFrom digest 0 ['0'] doc.hashChain).isEmpty) := by
    rw [hverify, hfold]
  refine ⟨fun d cArg kArg => rfl, ?_, ?_⟩
  · rw [hinv]
    constructor
    · intro hmem
      rcases List.mem_append.mp hmem with hl | hr
      · obtain ⟨i, e', a', hxe⟩ := hshape _ hl
        exact absurd hxe (by intro hcontra; exact InvalidEntry.noConfusion hcontra)
      · obtain ⟨k, cp, hget, hj, he, ha, hne'⟩ :=
          (mem_entriesFrom digest doc.hashChain 0 ['0'] j e a).mp hr
        have hk : k = j := by omega
        subst hk
        exact ⟨cp, hget, he, ha, hne'⟩
    · intro hex
      obtain ⟨cp, hget, he, ha, hne'⟩ := hex
      refine List.mem_append.mpr (Or.inr ?_)
      exact (mem_entriesFrom digest doc.hashChain 0 ['0'] j e a).mpr
        ⟨j, cp, hget, by omega, he, ha, hne'⟩
  · intro hmem
    rw [hinv] at hmem
    rcases List.mem_append.mp hmem with hl | hr
    · obtain ⟨i, e', a', hxe⟩ := hshape _ hl
      exact absurd hxe (by intro hcontra; exact InvalidEntry.noConfusion hcontra)
    · rw [hval]
      cases hE : entriesFrom digest 0 ['0'] doc.hashChain with
      | nil =>
        rw [hE] at hr
        exact absurd hr (List.not_mem_nil _)
      | cons y ys => simp

/-- Witness for C8: the recurrence of `createHashCheckpoint` at a
concrete document, and membership of the concrete cumulative-mismatch
entry for the document whose stored hashes are not chained correctly. -/
theorem c8_witness :
    ((createHashCheckpoint fallbackDigest c1Doc none none).2).cumulativeHash =
        fallbackDigest (cpH.cumulativeHash ++
          ((createHashCheckpoint fallbackDigest c1Doc none none).2).contentHash) ∧
      (InvalidEntry.cumulativeHashMismatch 0
          (fallbackDigest (['0'] ++ List.replicate 64 'a')) (List.replicate 64 'b') ∈
        (verifyDocument fallbackDigest c6Doc).invalidCheckpoints) ∧
      (verifyDocument fallbackDigest c6Doc).isValid = false := by
  have h := c8_cumulative_chain_recurrence fallbackDigest c6Doc logH 0
    (fallbackDigest (['0'] ++ List.replicate 64 'a')) (List.replicate 64 'b')
    rfl (by decide)
  have hmem := h.2.1.mpr
    ⟨⟨0, 0, List.replicate 64 'a', List.replicate 64 'b'⟩, rfl, rfl, rfl, by decide⟩
  exact ⟨h.1 c1Doc none none, hmem, h.2.2 hmem⟩

/-- Counterexample to C8 as stated over every document: `c8Doc` has an
empty keystroke log and a stored cumulative hash (the character w) that
differs from the value the recurrence from genesis recomputes (the
digest of the string 0z), yet verification records no invalid entry for
checkpoint index 0 and reports the document fully valid — the claimed
equivalence fails because the chain pass is skipped entirely for empty
or absent logs. -/
theorem c8_counterexample :
    fallbackDigest (['0'] ++ ['z']) ≠ ['w'] ∧
      c8Doc.hashChain = [⟨0, 0, ['z'], ['w']⟩] ∧
      verifyDocument fallbackDigest c8Doc = ⟨1, 0, [], true⟩ := by
  decide

end WriteProof
